/-
Verification of the CATS fingerprint generator (code/make_cats.py) and the
AVE/VE bias estimation utilities (code/utils.py).

Conventions of the shallow embedding:
* numpy floating-point values are modelled by exact rationals (ℚ); the IEEE
  value NaN is modelled by `none` in an `Option ℚ`, and a Python exception
  (e.g. numpy's ValueError on a zero-size reduction) by `Except.error`.
* numpy 1-D / 2-D arrays are modelled by `List ℚ` / `List (List ℚ)`.
* Python lists of cluster ids are modelled by `List ℤ`.
* RDKit's topological distance matrix is modelled by a function
  `ℕ → ℕ → ℕ`; RDKit reports disconnected pairs with the sentinel 1e8,
  so a disconnected pair is any value ≥ 11 as far as the code is concerned.
-/
import Mathlib

set_option maxRecDepth 4000

/-! ## The CATS fingerprint (code/make_cats.py) -/

/-- The seven pharmacophore labels D, A, E, H, B, P, L. -/
inductive AtomType : Type
  | D | A | E | H | B | P | L
deriving DecidableEq, Repr

/-- ASCII code of the one-character label, used by Python's `sorted` on the
pair of one-character strings. -/
def AtomType.ord : AtomType → ℕ
  | .D => 68
  | .A => 65
  | .E => 69
  | .H => 72
  | .B => 66
  | .P => 80
  | .L => 76

/-- `sorted((x, y))[0] + sorted((x, y))[1]` : the canonically sorted
two-character key, as a pair. -/
def keyOf (x y : AtomType) : AtomType × AtomType :=
  if x.ord ≤ y.ord then (x, y) else (y, x)

/-- `atomTypes = ['D', 'A', 'E', 'H', 'B', 'P', 'L']` in source order. -/
def atomTypes : List AtomType :=
  [AtomType.D, AtomType.A, AtomType.E, AtomType.H, AtomType.B, AtomType.P, AtomType.L]

/-- `itertools.combinations_with_replacement(l, 2)` in its enumeration
order. -/
def cwr : List α → List (α × α)
  | [] => []
  | x :: xs => (x, x) :: xs.map (fun y => (x, y)) ++ cwr xs

/-- `possible_pairs = [sorted(i)[0]+sorted(i)[1] for i in
itertools.combinations_with_replacement(atomTypes, 2)]`. -/
def possible_pairs : List (AtomType × AtomType) :=
  (cwr atomTypes).map (fun p => keyOf p.1 p.2)

/-- A molecule after `setProps` (the external atom-typer) has run: the number
of atoms, the list of pharmacophore labels carried by each atom, and the
topological distance matrix delivered by `Chem.GetDistanceMatrix` (RDKit
reports disconnected pairs with the sentinel 1e8 ≥ 11). -/
structure Molecule where
  natoms : ℕ
  labels : ℕ → List AtomType
  dist : ℕ → ℕ → ℕ

/-- The fingerprint dictionary `fp`: for each two-character key an array of
ten integer counters.  We model it as a total function from keys and integer
indices (numpy array indices may be negative). -/
def FP : Type := AtomType × AtomType → ℤ → ℤ

/-- `make_blank_distributions()` : every counter starts at zero. -/
def make_blank_distributions : FP := fun _ _ => 0

/-- numpy resolution of a (possibly negative) index into an array of length
10: index -1 addresses slot 9.  In `addBond` the incoming index is
`int(distance) - 1 ∈ [-1, 9]`, so the wrap by +10 covers every reachable
case. -/
def npIdx (b : ℤ) : ℤ := if b < 0 then b + 10 else b

/-- `fp[key][distance] = fp[key][distance] + 1`. -/
def bump (fp : FP) (k : AtomType × AtomType) (b : ℤ) : FP :=
  fun k2 b2 => if k2 = k ∧ b2 = npIdx b then fp k2 b2 + 1 else fp k2 b2

/-- `addBond(point, mol, distance, fp)` : for every label `x` on the first
atom and every label `y` on the second, increment the counter of the sorted
key at array index `distance`. -/
def addBond (i j : ℕ) (mol : Molecule) (distance : ℤ) (fp : FP) : FP :=
  (mol.labels i).foldl
    (fun acc x => (mol.labels j).foldl (fun acc2 y => bump acc2 (keyOf x y) distance) acc)
    fp

/-- `itertools.combinations(range(n), 2)` : all pairs `(i, j)` with
`i < j < n`, in lexicographic order. -/
def combinations2 (n : ℕ) : List (ℕ × ℕ) :=
  (List.range n).flatMap (fun i => ((List.range n).filter (fun j => i < j)).map (fun j => (i, j)))

/-- `getDistances(mol, fp_dict)` : walk every atom pair; if the topological
distance is < 11, call `addBond` with array index `int(distance) - 1`. -/
def getDistances (mol : Molecule) (fp0 : FP) : FP :=
  (combinations2 mol.natoms).foldl
    (fun acc p =>
      if mol.dist p.1 p.2 < 11 then addBond p.1 p.2 mol ((mol.dist p.1 p.2 : ℤ) - 1) acc
      else acc)
    fp0

/-- All tuples `(i, j, x, y)` with `i < j` atoms of `mol`, `x` a label of
atom `i` and `y` a label of atom `j`. -/
def quadruples (mol : Molecule) : List (ℕ × ℕ × AtomType × AtomType) :=
  (combinations2 mol.natoms).flatMap
    (fun p => (mol.labels p.1).flatMap
      (fun x => (mol.labels p.2).map (fun y => (p.1, p.2, x, y))))

/-- The number of label-pair contributions that the specification assigns to
key `k` and bucket `b` : quadruples whose atom pair lies at topological
distance `d < 11` with sorted key `k` and `d - 1 = b`. -/
def countQuads (mol : Molecule) (k : AtomType × AtomType) (b : ℤ) : ℕ :=
  ((quadruples mol).filter (fun q =>
    decide (mol.dist q.1 q.2.1 < 11) && decide (keyOf q.2.2.1 q.2.2.2 = k)
      && decide ((mol.dist q.1 q.2.1 : ℤ) - 1 = b))).length

/-- `make_FP(mol)` (exact variant): run `getDistances` from the blank
dictionary and flatten the 28 ten-slot histograms, in `possible_pairs`
order, into one 280-entry vector. -/
def make_FP (mol : Molecule) : List ℤ :=
  let fp := getDistances mol make_blank_distributions
  possible_pairs.flatMap (fun k => (List.range 10).map (fun (b : ℕ) => fp k (b : ℤ)))

example : possible_pairs.length = 28 := by decide
example : (combinations2 3) = [(0,1),(0,2),(1,2)] := by decide

/-- The ethanol-like scenario of the specification: three atoms in a chain,
aliphatic-carbon labels on atoms 0 and 1, an acceptor label on atom 2. -/
def ethanolMol : Molecule where
  natoms := 3
  labels := fun i =>
    if i = 0 then [AtomType.L] else if i = 1 then [AtomType.L]
    else if i = 2 then [AtomType.A] else []
  dist := fun i j => max i j - min i j


/-! ## Python / numpy primitives used by code/utils.py -/

/-- Python's `round` : round half to even (banker's rounding). -/
def pyRound (q : ℚ) : ℤ :=
  let f : ℤ := Rat.floor q
  let r : ℚ := q - f
  if r < 1/2 then f
  else if 1/2 < r then f + 1
  else if f % 2 = 0 then f else f + 1

/-- Python's `int` applied to a float: truncation toward zero. -/
def pyInt (q : ℚ) : ℤ := if 0 ≤ q then Rat.floor q else Rat.ceil q

/-- Python slice `l[:k]` for an integer `k` of either sign: a negative `k`
counts from the end (clamped at the start). -/
def pyTake (l : List α) (k : ℤ) : List α :=
  if 0 ≤ k then l.take k.toNat else l.take (l.length - (-k).toNat)

/-- Python slice `l[k:]` for an integer `k` of either sign.  Note
`l[-0:] = l[0:] = l`: a slice start of `-round(x)` with `round(x) = 0`
yields the whole list. -/
def pyDrop (l : List α) (k : ℤ) : List α :=
  if 0 ≤ k then l.drop k.toNat else l.drop (l.length - (-k).toNat)

example : pyTake [1,2,3,4] (-1) = [1,2,3] := by decide
example : pyDrop [1,2,3,4] (-0) = [1,2,3,4] := by decide
example : pyDrop [1,2,3,4] (-1) = [4] := by decide
example : pyRound (1/2) = 0 := by with_unfolding_all decide
example : pyRound (3/2) = 2 := by with_unfolding_all decide
example : pyRound (5/2) = 2 := by with_unfolding_all decide

/-! ## split_clusters (code/utils.py lines 46-73)

`shuffle=True` merely permutes the two input lists before the deterministic
slicing below; since every claim quantifies over all input orderings, the
embedding takes the lists as already (possibly) shuffled. -/

/-- `split_clusters(pos_labels, neg_labels, pos_test_fraction,
neg_test_fraction)`.  The negative test fraction is either a single float
(`Sum.inl`) or a pair of fractions (`Sum.inr`), mirroring the
`isinstance(neg_test_fraction, float)` test; the pair branch raises
`ValueError` when the fractions sum to more than 1. -/
def split_clusters (pos_labels neg_labels : List ℤ) (pos_test_fraction : ℚ)
    (neg_test_fraction : ℚ ⊕ ℚ × ℚ) : Except String (List ℤ × List ℤ) :=
  let cut : ℤ := max 1 (pyRound (pos_labels.length * pos_test_fraction))
  let test_pos_clusters := pyTake pos_labels cut
  let train_pos_clusters := pyDrop pos_labels cut
  match neg_test_fraction with
  | Sum.inl f =>
      let k : ℤ := pyInt (neg_labels.length * f)
      Except.ok (test_pos_clusters ++ pyTake neg_labels k,
                 train_pos_clusters ++ pyDrop neg_labels k)
  | Sum.inr f =>
      if 1 < f.1 + f.2 then
        Except.error "Sum of test proportion and train proportion must be less than 1"
      else
        let test_neg_clusters := pyTake neg_labels (pyRound (neg_labels.length * f.1))
        let train_neg_clusters := pyDrop neg_labels (-(pyRound (neg_labels.length * f.2)))
        Except.ok (test_pos_clusters ++ test_neg_clusters,
                   train_pos_clusters ++ train_neg_clusters)

/-! ## merge_feature_matrices / split_feature_matrices
(code/utils.py lines 153-199) -/

/-- `merge_feature_matrices(matrices)`: stacks the train and the test
instances, and builds the 1-D label arrays (`np.zeros(len)` followed by
writing 1 into the leading active block is written directly as
replicate-append). -/
def merge_feature_matrices
    (matrices : List (List ℚ) × List (List ℚ) × List (List ℚ) × List (List ℚ)) :
    List (List ℚ) × List (List ℚ) × List ℚ × List ℚ :=
  let x_train := matrices.1 ++ matrices.2.2.1
  let x_test := matrices.2.1 ++ matrices.2.2.2
  let y_train := List.replicate matrices.1.length (1 : ℚ)
      ++ List.replicate matrices.2.2.1.length (0 : ℚ)
  let y_test := List.replicate matrices.2.1.length (1 : ℚ)
      ++ List.replicate matrices.2.2.2.length (0 : ℚ)
  (x_train, x_test, y_train, y_test)

/-- `split_feature_matrices(x_train, x_test, y_train, y_test, idx)` : select
the rows of `x` whose label-row entry at column `idx` is 1 (respectively is
not 1).  The numpy boolean mask `x[y[:,idx]==1]` keeps rows in order; it is
modelled by zip-filter-project. -/
def split_feature_matrices (x_train x_test : List (List ℚ))
    (y_train y_test : List (List ℚ)) (idx : ℕ) :
    List (List ℚ) × List (List ℚ) × List (List ℚ) × List (List ℚ) :=
  let x_actives_train := ((x_train.zip y_train).filter
    (fun p => p.2.getD idx 0 = 1)).map Prod.fst
  let x_actives_test := ((x_test.zip y_test).filter
    (fun p => p.2.getD idx 0 = 1)).map Prod.fst
  let x_inactives_train := ((x_train.zip y_train).filter
    (fun p => ¬ p.2.getD idx 0 = 1)).map Prod.fst
  let x_inactives_test := ((x_test.zip y_test).filter
    (fun p => ¬ p.2.getD idx 0 = 1)).map Prod.fst
  (x_actives_train, x_actives_test, x_inactives_train, x_inactives_test)

/-! ## fast_jaccard / fast_dice (code/utils.py lines 233-266)

Entries are binary feature vectors (`List Bool` rows).  Both distances
divide by a quantity that is zero exactly when both rows are all-zero: in
numpy that division is `0/0 = nan` (a RuntimeWarning, not an exception).
`none` models the NaN entry. -/

/-- Row intersection size `(X.dot(Y.T))[i,j]` of binarized rows. -/
def interRow (r s : List Bool) : ℕ :=
  (List.zipWith (fun a b => if a && b then (1 : ℕ) else 0) r s).sum

/-- Row sum `X.sum(axis=1)` (= `getnnz` on the binarized sparse row). -/
def cardRow (r : List Bool) : ℕ := (r.map (fun a => if a then (1 : ℕ) else 0)).sum

/-- numpy float division, restricted to the cases arising here: the
denominator vanishes only when the numerator also does, giving `0/0 = nan`
(`none`). -/
def npDiv (a b : ℚ) : Option ℚ := if b = 0 then none else some (a / b)

/-- One entry of `1 - intersect / union`. -/
def jaccardEntry (r s : List Bool) : Option ℚ :=
  (npDiv (interRow r s) ((cardRow r : ℚ) + cardRow s - interRow r s)).map (fun q => 1 - q)

/-- One entry of `1 - (2*intersect) / (cardinality_X + cardinality_Y.T)`. -/
def diceEntry (r s : List Bool) : Option ℚ :=
  (npDiv (2 * interRow r s) ((cardRow r : ℚ) + cardRow s)).map (fun q => 1 - q)

/-- `fast_jaccard(X)` on the self-distance path (`Y=None`). -/
def fast_jaccard (X : List (List Bool)) : List (List (Option ℚ)) :=
  X.map (fun r => X.map (fun s => jaccardEntry r s))

/-- `fast_dice(X)` on the self-distance path (`Y=None`). -/
def fast_dice (X : List (List Bool)) : List (List (Option ℚ)) :=
  X.map (fun r => X.map (fun s => diceEntry r s))

/-- Entry `(i, j)` of a list-of-lists matrix, `none` when out of range. -/
def entry (M : List (List α)) (i j : ℕ) : Option α :=
  (M.get? i).bind (fun r => r.get? j)

/-! ## The AVE and VE bias estimators (code/utils.py lines 90-105, 332-367) -/

/-- `np.linspace(a, b, n)` for `n ≥ 2` : `a + (b - a) * k / (n - 1)` for
`k = 0, …, n-1`. -/
def linspace (a b : ℚ) (n : ℕ) : List ℚ :=
  (List.range n).map (fun (k : ℕ) => a + (b - a) * (k : ℚ) / ((n : ℚ) - 1))

/-- `np.mean` of a boolean array: the fraction of `True` entries; the empty
array gives NaN (`none`). -/
def npMeanB (l : List Bool) : Option ℚ :=
  if l.isEmpty then none else some ((l.count true : ℚ) / l.length)

/-- `np.mean` of a float array: NaN (`none`) on the empty array. -/
def npMeanQ (l : List ℚ) : Option ℚ :=
  if l.isEmpty then none else some (l.sum / l.length)

/-- Extract the values of a list of possibly-NaN floats; `none` as soon as
one entry is NaN. -/
def allSome : List (Option ℚ) → Option (List ℚ)
  | [] => some []
  | none :: _ => none
  | some x :: rest => (allSome rest).map (fun v => x :: v)

/-- `np.mean` of a Python list of floats that may contain NaN: NaN
propagates into the mean. -/
def npMeanOpt (l : List (Option ℚ)) : Option ℚ :=
  (allSome l).bind npMeanQ

/-- `np.any(D < t, axis=1)` : one boolean per row. -/
def npAnyLt (M : List (List ℚ)) (t : ℚ) : List Bool :=
  M.map (fun r => r.any (fun x => decide (x < t)))

/-- One similarity score
`np.mean([np.mean(np.any(D < t, axis=1)) for t in np.linspace(0, 1.0, 50)])`. -/
def S_code (M : List (List ℚ)) : Option ℚ :=
  npMeanOpt ((linspace 0 1 50).map (fun t => npMeanB (npAnyLt M t)))

/-- `calc_AVE(distances)` : combines the four similarity scores.  The result
is NaN (`none`) when any score is NaN; no exception can be raised. -/
def calc_AVE (distances :
    List (List ℚ) × List (List ℚ) × List (List ℚ) × List (List ℚ)) : Option ℚ := do
  let aTest_aTrain_S ← S_code distances.1
  let aTest_iTrain_S ← S_code distances.2.1
  let iTest_iTrain_S ← S_code distances.2.2.1
  let iTest_aTrain_S ← S_code distances.2.2.2
  pure (aTest_aTrain_S - aTest_iTrain_S + iTest_iTrain_S - iTest_aTrain_S)

/-- `D.min(axis=1)` of a single row: numpy raises
`ValueError: zero-size array to reduction operation minimum which has no
identity` on an empty row. -/
def liftMin (r : List ℚ) : Except String ℚ :=
  match r with
  | [] => Except.error "zero-size array to reduction operation minimum which has no identity"
  | x :: xs => Except.ok (xs.foldl min x)

/-- `D.min(axis=1)` over a whole matrix: the vector of row minima, or the
numpy ValueError if a row is zero-size. -/
def minsOf : List (List ℚ) → Except String (List ℚ)
  | [] => Except.ok []
  | r :: rest =>
      match liftMin r with
      | Except.error e => Except.error e
      | Except.ok m =>
          match minsOf rest with
          | Except.error e => Except.error e
          | Except.ok ms => Except.ok (m :: ms)

/-- The row-wise minimum of a nonempty row (defaulting to 0 on the empty
row, which `liftMin` rejects anyway). -/
def rowMinD : List ℚ → ℚ
  | [] => 0
  | x :: xs => xs.foldl min x

/-- `dmat[rows][:, cols]` : numpy double fancy indexing. -/
def submatrix (dmat : List (List ℚ)) (rows cols : List ℕ) : List (List ℚ) :=
  rows.map (fun i => cols.map (fun j => (dmat.getD i []).getD j 0))

/-- One similarity score of `calc_AVE_quick`, computed from the vector of
row minima:
`np.mean([np.mean(D_min < t) for t in np.linspace(0, 1.0, 50)])`. -/
def S_quick (mins : List ℚ) : Option ℚ :=
  npMeanOpt ((linspace 0 1 50).map (fun t =>
    npMeanB (mins.map (fun m => decide (m < t)))))

/-- `calc_AVE_quick(dmat, actives_train, actives_test, inactives_train,
inactives_test)` : selects the four submatrices from one big distance
matrix, reduces each to its vector of row minima, and averages thresholded
fractions.  `min(1)` raises on an empty column selection. -/
def calc_AVE_quick (dmat : List (List ℚ))
    (actives_train actives_test inactives_train inactives_test : List ℕ) :
    Except String (Option ℚ) := do
  let iTest_iTrain_D ← minsOf (submatrix dmat inactives_test inactives_train)
  let iTest_aTrain_D ← minsOf (submatrix dmat inactives_test actives_train)
  let aTest_aTrain_D ← minsOf (submatrix dmat actives_test actives_train)
  let aTest_iTrain_D ← minsOf (submatrix dmat actives_test inactives_train)
  Except.ok (do
    let aTest_aTrain_S ← S_quick aTest_aTrain_D
    let aTest_iTrain_S ← S_quick aTest_iTrain_D
    let iTest_iTrain_S ← S_quick iTest_iTrain_D
    let iTest_aTrain_S ← S_quick iTest_aTrain_D
    pure (aTest_aTrain_S - aTest_iTrain_S + iTest_iTrain_S - iTest_aTrain_S))

/-- The two means of `calc_VE` :
`term_one = np.mean(aTest_iTrain_D.min(axis=1) - aTest_aTrain_D.min(axis=1))`
and the analogous inactive term.  `min(axis=1)` raises on a matrix with a
zero-size row; a mean over zero rows is NaN, which propagates (the final
`np.sqrt` maps NaN to NaN). -/
def VE_terms (distances :
    List (List ℚ) × List (List ℚ) × List (List ℚ) × List (List ℚ)) :
    Except String (Option (ℚ × ℚ)) :=
  match minsOf distances.2.1 with
  | Except.error e => Except.error e
  | Except.ok aTest_iTrain_min =>
    match minsOf distances.1 with
    | Except.error e => Except.error e
    | Except.ok aTest_aTrain_min =>
      match minsOf distances.2.2.2 with
      | Except.error e => Except.error e
      | Except.ok iTest_aTrain_min =>
        match minsOf distances.2.2.1 with
        | Except.error e => Except.error e
        | Except.ok iTest_iTrain_min =>
          Except.ok (do
            let term_one ← npMeanQ
              (List.zipWith (fun a b => a - b) aTest_iTrain_min aTest_aTrain_min)
            let term_two ← npMeanQ
              (List.zipWith (fun a b => a - b) iTest_aTrain_min iTest_iTrain_min)
            pure (term_one, term_two))

/-- `calc_VE(distances) = np.sqrt(term_one**2 + term_two**2)`. -/
noncomputable def calc_VE (distances :
    List (List ℚ) × List (List ℚ) × List (List ℚ) × List (List ℚ)) :
    Except String (Option ℝ) :=
  (VE_terms distances).map (Option.map (fun p =>
    Real.sqrt ((p.1 : ℝ) ^ 2 + (p.2 : ℝ) ^ 2)))

/-! ## Definitions written from the specification text (for the
refinement-style claims C1 and C9) -/

/-- Spec: "the 50 evenly spaced thresholds t in [0,1] (inclusive
endpoints)". -/
def specThresholds : List ℚ := (List.range 50).map (fun (k : ℕ) => (k : ℚ) / 49)

/-- Spec: "the fraction of rows of M that contain at least one entry
strictly less than t". -/
def fracBelow (M : List (List ℚ)) (t : ℚ) : ℚ :=
  ((M.filter (fun r => r.any (fun x => decide (x < t)))).length : ℚ) / M.length

/-- Spec: "S(M) is the mean, over the 50 evenly spaced thresholds t in
[0,1], of the fraction of rows of M that contain at least one entry
strictly less than t". -/
def S_spec (M : List (List ℚ)) : ℚ :=
  (specThresholds.map (fun t => fracBelow M t)).sum / 50

/-- Spec: "term1 is the mean over active-test rows of (row-min of
aTest-iTrain minus row-min of aTest-aTrain)". -/
def specTerm (cross same : List (List ℚ)) : ℚ :=
  (List.zipWith (fun rc rs => rowMinD rc - rowMinD rs) cross same).sum / cross.length

/-! ## Helper lemmas: counting the increments of the fingerprint fold -/

lemma bump_apply (fp : FP) (k : AtomType × AtomType) (b : ℤ)
    (k2 : AtomType × AtomType) (b2 : ℤ) :
    bump fp k b k2 b2 = fp k2 b2 + (if k2 = k ∧ b2 = npIdx b then 1 else 0) := by
  unfold bump
  split <;> simp

lemma foldl_addlike {α : Type} (step : FP → α → FP) (g : α → ℤ)
    (k : AtomType × AtomType) (b : ℤ)
    (hstep : ∀ (fp : FP) (a : α), step fp a k b = fp k b + g a) :
    ∀ (l : List α) (fp : FP), (l.foldl step fp) k b = fp k b + (l.map g).sum := by
  intro l
  induction l with
  | nil => intro fp; simp
  | cons x xs ih =>
      intro fp
      rw [List.foldl_cons, ih, hstep, List.map_cons, List.sum_cons]
      ring

/-- The pointwise effect of `addBond`: it adds one unit per label pair
`(x, y)` whose sorted key and resolved slot match. -/
lemma addBond_apply (i j : ℕ) (mol : Molecule) (d : ℤ) (fp : FP)
    (k : AtomType × AtomType) (b : ℤ) :
    addBond i j mol d fp k b = fp k b +
      ((mol.labels i).map (fun x =>
        ((mol.labels j).map (fun y =>
          if k = keyOf x y ∧ b = npIdx d then (1 : ℤ) else 0)).sum)).sum := by
  unfold addBond
  exact foldl_addlike _ _ k b
    (fun fp0 x => foldl_addlike _ _ k b (fun fp1 y => bump_apply fp1 (keyOf x y) d k b)
      (mol.labels j) fp0)
    (mol.labels i) fp

/-- The pointwise effect of `getDistances` as a sum over atom pairs. -/
lemma getDistances_apply (mol : Molecule) (fp0 : FP)
    (k : AtomType × AtomType) (b : ℤ) :
    getDistances mol fp0 k b = fp0 k b +
      ((combinations2 mol.natoms).map (fun p =>
        if mol.dist p.1 p.2 < 11 then
          ((mol.labels p.1).map (fun x =>
            ((mol.labels p.2).map (fun y =>
              if k = keyOf x y ∧ b = npIdx ((mol.dist p.1 p.2 : ℤ) - 1) then (1 : ℤ)
              else 0)).sum)).sum
        else 0)).sum := by
  unfold getDistances
  refine foldl_addlike _ _ k b ?_ (combinations2 mol.natoms) fp0
  intro fp p
  by_cases h : mol.dist p.1 p.2 < 11
  · simp only [h, if_true, addBond_apply]
  · simp [h]

lemma mem_combinations2 {n : ℕ} {p : ℕ × ℕ} (h : p ∈ combinations2 n) :
    p.1 < p.2 ∧ p.2 < n := by
  unfold combinations2 at h
  simp only [List.mem_flatMap, List.mem_map, List.mem_filter, List.mem_range] at h
  obtain ⟨i, _, j, hj, rfl⟩ := h
  exact ⟨by simpa using hj.2, by simpa using hj.1⟩

lemma countP_flatMap {α β : Type} (l : List α) (f : α → List β) (p : β → Bool) :
    (l.flatMap f).countP p = (l.map (fun a => (f a).countP p)).sum := by
  induction l with
  | nil => simp
  | cons x xs ih => simp [List.flatMap_cons, List.countP_append, ih]

lemma sum_ite_one_eq_countP {α : Type} (l : List α) (p : α → Prop) [DecidablePred p] :
    (l.map (fun a => if p a then (1 : ℤ) else 0)).sum = l.countP (fun a => decide (p a)) := by
  induction l with
  | nil => simp
  | cons x xs ih =>
      by_cases h : p x <;> simp [h, ih, List.countP_cons, add_comm]

/-- C2: for every molecule whose atoms carry label sets over the 7-symbol
alphabet and whose pairwise topological distances are given (`hd`: distinct
atoms are at distance ≥ 1; disconnected pairs carry RDKit's large sentinel
1e8 ≥ 11 and hence ≥ 1), the histogram builder adds, for every unordered
pair of distinct atoms `(i, j)` at topological distance `d < 11` and every
label `x` on atom `i` and `y` on atom `j`, exactly 1 to the counter of the
canonically sorted key at bucket `d - 1`; pairs at distance ≥ 11 and pairs
without labels contribute nothing.  Formally: the final counter at any key
`k` and bucket `b` equals the number of quadruples `(i, j, x, y)` with
`i < j`, `dist i j < 11`, `sorted(x, y) = k` and `dist i j - 1 = b`. -/
theorem C2_getDistances_count (mol : Molecule)
    (hd : ∀ j, j < mol.natoms → ∀ i, i < j → 0 < mol.dist i j)
    (k : AtomType × AtomType) (b : ℤ) :
    getDistances mol make_blank_distributions k b = (countQuads mol k b : ℤ) := by
  rw [getDistances_apply]
  unfold make_blank_distributions
  rw [zero_add]
  unfold countQuads quadruples
  rw [← List.countP_eq_length_filter, countP_flatMap, Nat.cast_list_sum, List.map_map]
  refine congrArg List.sum (List.map_congr_left ?_)
  intro p hp
  obtain ⟨hij, hjn⟩ := mem_combinations2 hp
  simp only [Function.comp]
  by_cases hlt : mol.dist p.1 p.2 < 11
  · have hpos : 0 < mol.dist p.1 p.2 := hd p.2 hjn p.1 hij
    have hnp : npIdx ((mol.dist p.1 p.2 : ℤ) - 1) = (mol.dist p.1 p.2 : ℤ) - 1 := by
      unfold npIdx
      rw [if_neg]
      omega
    rw [if_pos hlt, countP_flatMap, Nat.cast_list_sum, List.map_map]
    refine congrArg List.sum (List.map_congr_left ?_)
    intro x _
    simp only [Function.comp, List.countP_map]
    rw [sum_ite_one_eq_countP (mol.labels p.2)
      (fun y => k = keyOf x y ∧ b = npIdx ((mol.dist p.1 p.2 : ℤ) - 1))]
    congr 1
    refine List.countP_congr ?_
    intro y _
    simp only [Function.comp, ← Bool.decide_and, hnp, decide_eq_true_eq]
    constructor
    · rintro ⟨ha, hb⟩
      exact ⟨⟨hlt, ha.symm⟩, hb.symm⟩
    · rintro ⟨⟨_, ha⟩, hb⟩
      exact ⟨ha.symm, hb.symm⟩
  · rw [if_neg hlt]
    have : List.countP
        (fun q => decide (mol.dist q.1 q.2.1 < 11) && decide (keyOf q.2.2.1 q.2.2.2 = k)
          && decide ((mol.dist q.1 q.2.1 : ℤ) - 1 = b))
        ((mol.labels p.1).flatMap (fun x =>
          (mol.labels p.2).map (fun y => (p.1, p.2, x, y)))) = 0 := by
      rw [List.countP_eq_zero]
      intro q hq
      simp only [List.mem_flatMap, List.mem_map] at hq
      obtain ⟨x, _, y, _, rfl⟩ := hq
      simp [hlt]
    rw [this]
    simp



/-- Witness for C2 at the ethanol scenario: the L-A histogram holds exactly
one count at bucket 0 (the distance-1 pair of atoms 1 and 2). -/
theorem C2_witness :
    getDistances ethanolMol make_blank_distributions (AtomType.A, AtomType.L) 0 = 1 :=
  (C2_getDistances_count ethanolMol (by decide) (AtomType.A, AtomType.L) 0).trans (by decide)

/-- Every counter stays non-negative through `getDistances`. -/
lemma getDistances_nonneg (mol : Molecule) (fp0 : FP)
    (h0 : ∀ k b, 0 ≤ fp0 k b) (k : AtomType × AtomType) (b : ℤ) :
    0 ≤ getDistances mol fp0 k b := by
  rw [getDistances_apply]
  have hsum : (0 : ℤ) ≤ ((combinations2 mol.natoms).map (fun p =>
      if mol.dist p.1 p.2 < 11 then
        ((mol.labels p.1).map (fun x =>
          ((mol.labels p.2).map (fun y =>
            if k = keyOf x y ∧ b = npIdx ((mol.dist p.1 p.2 : ℤ) - 1) then (1 : ℤ)
            else 0)).sum)).sum
      else 0)).sum := by
    refine List.sum_nonneg ?_
    intro v hv
    simp only [List.mem_map] at hv
    obtain ⟨p, _, rfl⟩ := hv
    split
    · refine List.sum_nonneg ?_
      intro w hw
      simp only [List.mem_map] at hw
      obtain ⟨x, _, rfl⟩ := hw
      refine List.sum_nonneg ?_
      intro u hu
      simp only [List.mem_map] at hu
      obtain ⟨y, _, rfl⟩ := hu
      split <;> norm_num
    · exact le_refl 0
  exact add_nonneg (h0 k b) hsum

lemma length_flatMap_const {α β : Type} (l : List α) (f : α → List β) (n : ℕ)
    (h : ∀ a ∈ l, (f a).length = n) : (l.flatMap f).length = l.length * n := by
  induction l with
  | nil => simp
  | cons x xs ih =>
      simp only [List.flatMap_cons, List.length_append, List.length_cons,
        h x (by simp)]
      rw [ih (fun a ha => h a (by simp [ha]))]
      ring

/-- C3: for every molecule, the fingerprint vector produced by `make_FP`
(the exact variant) has exactly 280 entries — the 28 canonically ordered
type-pair histograms of 10 buckets each, flattened in order — and every
entry is a non-negative integer. -/
theorem C3_make_FP_shape (mol : Molecule) :
    (make_FP mol).length = 280 ∧ ∀ v ∈ make_FP mol, 0 ≤ v := by
  constructor
  · show (possible_pairs.flatMap (fun k => (List.range 10).map
        (fun (b : ℕ) => getDistances mol make_blank_distributions k (b : ℤ)))).length = 280
    rw [length_flatMap_const _ _ 10 (fun k _ => by
      rw [List.length_map, List.length_range])]
    decide
  · intro v hv
    simp only [make_FP, List.mem_flatMap, List.mem_map, List.mem_range] at hv
    obtain ⟨k, _, b, _, rfl⟩ := hv
    exact getDistances_nonneg mol make_blank_distributions (fun _ _ => le_refl 0) k b

/-! ## C4: symmetry and diagonal of the self-distance matrices -/

lemma interRow_comm (r s : List Bool) : interRow r s = interRow s r := by
  unfold interRow
  induction r generalizing s with
  | nil => cases s <;> simp
  | cons a as ih =>
      cases s with
      | nil => simp
      | cons b bs =>
          simp only [List.zipWith_cons_cons, List.sum_cons]
          rw [ih bs, Bool.and_comm]

lemma jaccardEntry_comm (r s : List Bool) : jaccardEntry r s = jaccardEntry s r := by
  unfold jaccardEntry
  rw [interRow_comm, add_comm ((cardRow r : ℚ)) ((cardRow s : ℚ))]

lemma diceEntry_comm (r s : List Bool) : diceEntry r s = diceEntry s r := by
  unfold diceEntry
  rw [interRow_comm, add_comm ((cardRow r : ℚ)) ((cardRow s : ℚ))]

lemma interRow_self (r : List Bool) : interRow r r = cardRow r := by
  unfold interRow cardRow
  induction r with
  | nil => simp
  | cons a as ih => cases a <;> simp [List.zipWith_cons_cons, ih]

lemma cardRow_ne_zero {r : List Bool} (h : r.any id = true) : cardRow r ≠ 0 := by
  unfold cardRow
  induction r with
  | nil => simp at h
  | cons a as ih =>
      cases a with
      | true => simp
      | false =>
          simp only [List.any_cons, id, Bool.false_or] at h
          simpa using ih h

lemma jaccardEntry_self {r : List Bool} (h : r.any id = true) :
    jaccardEntry r r = some 0 := by
  have hc : (cardRow r : ℚ) ≠ 0 := by
    exact_mod_cast cardRow_ne_zero h
  unfold jaccardEntry npDiv
  rw [interRow_self]
  rw [if_neg (by rw [add_sub_cancel_right]; exact hc)]
  rw [add_sub_cancel_right, div_self hc]
  simp

lemma diceEntry_self {r : List Bool} (h : r.any id = true) :
    diceEntry r r = some 0 := by
  have hc : (cardRow r : ℚ) ≠ 0 := by
    exact_mod_cast cardRow_ne_zero h
  unfold diceEntry npDiv
  rw [interRow_self]
  rw [if_neg (by intro hh; exact hc (by linarith))]
  rw [show ((cardRow r : ℚ) + cardRow r) = 2 * cardRow r by ring]
  rw [mul_div_mul_left _ _ (by norm_num : (2:ℚ) ≠ 0), div_self hc]
  simp

lemma entry_map_map {α β : Type} (X : List α) (f : α → α → β) (i j : ℕ) :
    entry (X.map (fun r => X.map (fun s => f r s))) i j
      = (X.get? i).bind (fun r => (X.get? j).map (fun s => f r s)) := by
  unfold entry
  rw [List.get?_map]
  cases X.get? i with
  | none => simp
  | some r => simp [List.get?_map]

/-- C4 (amended): for every set of binary feature vectors `X`, the
self-distance matrices `fast_jaccard(X)` and `fast_dice(X)` are symmetric;
and every diagonal entry whose row has at least one nonzero feature is
exactly 0.  (An all-zero row produces the NaN diagonal entry `0/0`; see the
counterexample.) -/
theorem C4_self_distance_matrices (X : List (List Bool)) :
    (∀ i j : ℕ, entry (fast_jaccard X) i j = entry (fast_jaccard X) j i
      ∧ entry (fast_dice X) i j = entry (fast_dice X) j i)
    ∧ (∀ i : ℕ, i < X.length → (X.getD i []).any id = true →
        entry (fast_jaccard X) i i = some (some 0)
        ∧ entry (fast_dice X) i i = some (some 0)) := by
  constructor
  · intro i j
    constructor
    · unfold fast_jaccard
      rw [entry_map_map, entry_map_map]
      cases hi : X.get? i <;> cases hj : X.get? j <;>
        simp [jaccardEntry_comm]
    · unfold fast_dice
      rw [entry_map_map, entry_map_map]
      cases hi : X.get? i <;> cases hj : X.get? j <;>
        simp [diceEntry_comm]
  · intro i hi hany
    have hget : X.get? i = some (X.getD i []) := by
      rw [List.getD_eq_getElem?_getD, List.get?_eq_getElem?]
      cases hx : X[i]? with
      | none => rw [List.getElem?_eq_none_iff] at hx; omega
      | some r => simp
    constructor
    · unfold fast_jaccard
      rw [entry_map_map, hget]
      show some (jaccardEntry (X.getD i []) (X.getD i [])) = some (some 0)
      exact congrArg some (jaccardEntry_self hany)
    · unfold fast_dice
      rw [entry_map_map, hget]
      show some (diceEntry (X.getD i []) (X.getD i [])) = some (some 0)
      exact congrArg some (diceEntry_self hany)

/-- C4 counterexample: on the one-row input whose single row is all-zero,
both self-distance matrices have the NaN diagonal entry `0/0` (modelled by
`none`), not 0 — so the claim fails for inputs containing all-zero rows. -/
theorem C4_counterexample :
    entry (fast_jaccard [[false]]) 0 0 = some none
    ∧ entry (fast_dice [[false]]) 0 0 = some none
    ∧ some (none : Option ℚ) ≠ some (some (0 : ℚ)) := by
  refine ⟨?_, ?_, by simp⟩ <;> with_unfolding_all decide

/-- Witness for C4 at a concrete nonzero input. -/
theorem C4_witness :
    entry (fast_jaccard [[true]]) 0 0 = some (some 0)
    ∧ entry (fast_dice [[true]]) 0 0 = some (some 0) :=
  (C4_self_distance_matrices [[true]]).2 0 (by decide) (by decide)

/-! ## C5: merge followed by split reproduces the four matrices -/

lemma zip_label_filter_eq (xs : List (List ℚ)) (c : List ℚ) (v : ℚ) :
    (((xs.zip (List.replicate xs.length c)).filter
      (fun q => decide (q.2.getD 0 0 = v))).map Prod.fst)
      = if c.getD 0 0 = v then xs else [] := by
  induction xs with
  | nil => simp
  | cons x t ih =>
      simp only [List.length_cons, List.replicate_succ, List.zip_cons_cons,
        List.filter_cons]
      by_cases h : c.getD 0 0 = v <;>
        simp only [List.getD_eq_getElem?_getD] at h ih ⊢ <;> simp [h, ih]

lemma zip_label_filter_ne (xs : List (List ℚ)) (c : List ℚ) (v : ℚ) :
    (((xs.zip (List.replicate xs.length c)).filter
      (fun q => decide (¬ q.2.getD 0 0 = v))).map Prod.fst)
      = if c.getD 0 0 = v then [] else xs := by
  induction xs with
  | nil => simp
  | cons x t ih =>
      simp only [List.length_cons, List.replicate_succ, List.zip_cons_cons,
        List.filter_cons]
      by_cases h : c.getD 0 0 = v <;>
        simp only [List.getD_eq_getElem?_getD, decide_not] at h ih ⊢ <;> simp [h, ih]

lemma mask_append_eq (xs ys : List (List ℚ)) (cx cy : List ℚ) (v : ℚ) :
    ((((xs ++ ys).zip (List.replicate xs.length cx ++ List.replicate ys.length cy)).filter
      (fun q => decide (q.2.getD 0 0 = v))).map Prod.fst)
      = (if cx.getD 0 0 = v then xs else []) ++ (if cy.getD 0 0 = v then ys else []) := by
  rw [List.zip_append (by simp), List.filter_append, List.map_append,
    zip_label_filter_eq, zip_label_filter_eq]

lemma mask_append_ne (xs ys : List (List ℚ)) (cx cy : List ℚ) (v : ℚ) :
    ((((xs ++ ys).zip (List.replicate xs.length cx ++ List.replicate ys.length cy)).filter
      (fun q => decide (¬ q.2.getD 0 0 = v))).map Prod.fst)
      = (if cx.getD 0 0 = v then [] else xs) ++ (if cy.getD 0 0 = v then [] else ys) := by
  rw [List.zip_append (by simp), List.filter_append, List.map_append,
    zip_label_filter_ne, zip_label_filter_ne]

/-- C5: for every non-empty quartet of feature matrices, splitting the
merged matrices with the merged label data (presented to
`split_feature_matrices` as the single-column label matrix it expects, with
target column 0) reproduces the original four matrices, row order
preserved. -/
theorem C5_merge_then_split (a b c d : List (List ℚ))
    (ha : a ≠ []) (hb : b ≠ []) (hc : c ≠ []) (hd : d ≠ []) :
    split_feature_matrices
      (merge_feature_matrices (a, b, c, d)).1
      (merge_feature_matrices (a, b, c, d)).2.1
      ((merge_feature_matrices (a, b, c, d)).2.2.1.map (fun v => [v]))
      ((merge_feature_matrices (a, b, c, d)).2.2.2.map (fun v => [v]))
      0
    = (a, b, c, d) := by
  unfold merge_feature_matrices split_feature_matrices
  simp only [List.map_append, List.map_replicate]
  rw [mask_append_eq, mask_append_eq, mask_append_ne, mask_append_ne]
  norm_num [List.getD]

/-- Witness for C5 at a concrete quartet. -/
theorem C5_witness :
    split_feature_matrices
      (merge_feature_matrices ([[1]], [[2]], [[3]], [[4]])).1
      (merge_feature_matrices ([[1]], [[2]], [[3]], [[4]])).2.1
      ((merge_feature_matrices ([[1]], [[2]], [[3]], [[4]])).2.2.1.map (fun v => [v]))
      ((merge_feature_matrices ([[1]], [[2]], [[3]], [[4]])).2.2.2.map (fun v => [v]))
      0
    = ([[1]], [[2]], [[3]], [[4]]) :=
  C5_merge_then_split [[1]] [[2]] [[3]] [[4]]
    (by simp) (by simp) (by simp) (by simp)

/-! ## C6 and C7: cluster splitting -/

lemma py_take_drop_spec {α : Type} (l : List α) (k : ℤ) :
    ∃ m : ℕ, pyTake l k = l.take m ∧ pyDrop l k = l.drop m := by
  unfold pyTake pyDrop
  by_cases h : 0 ≤ k
  · exact ⟨k.toNat, by rw [if_pos h], by rw [if_pos h]⟩
  · exact ⟨l.length - (-k).toNat, by rw [if_neg h], by rw [if_neg h]⟩

lemma pyTake_append_pyDrop {α : Type} (l : List α) (k : ℤ) :
    pyTake l k ++ pyDrop l k = l := by
  obtain ⟨m, h1, h2⟩ := py_take_drop_spec l k
  rw [h1, h2, List.take_append_drop]

/-- C6 (amended): when the negative test fraction is a single float, and the
positive and negative cluster-id lists are duplicate-free and mutually
disjoint, `split_clusters` returns test/train lists that are disjoint and
whose union covers every input cluster id.  (For a pair-of-fractions
argument the partition property fails; see the counterexample.) -/
theorem C6_split_clusters_partition (pos neg : List ℤ) (pf nf : ℚ)
    (hpos : pos.Nodup) (hneg : neg.Nodup) (hdisj : ∀ x ∈ pos, x ∉ neg)
    (test train : List ℤ)
    (h : split_clusters pos neg pf (Sum.inl nf) = Except.ok (test, train)) :
    (∀ c, ¬ (c ∈ test ∧ c ∈ train))
    ∧ (∀ c, c ∈ pos ∨ c ∈ neg → c ∈ test ∨ c ∈ train) := by
  unfold split_clusters at h
  simp only [Except.ok.injEq, Prod.mk.injEq] at h
  obtain ⟨htest, htrain⟩ := h
  subst htest htrain
  obtain ⟨mp, hp1, hp2⟩ := py_take_drop_spec pos (max 1 (pyRound (pos.length * pf)))
  obtain ⟨mn, hn1, hn2⟩ := py_take_drop_spec neg (pyInt (neg.length * nf))
  rw [hp1, hp2, hn1, hn2]
  constructor
  · rintro c ⟨hct, hctr⟩
    rw [List.mem_append] at hct hctr
    rcases hct with hc1 | hc2 <;> rcases hctr with hc3 | hc4
    · exact (List.disjoint_take_drop hpos le_rfl) hc1 hc3
    · exact hdisj c (List.take_subset mp pos hc1) (List.drop_subset mn neg hc4)
    · exact hdisj c (List.drop_subset mp pos hc3) (List.take_subset mn neg hc2)
    · exact (List.disjoint_take_drop hneg le_rfl) hc2 hc4
  · intro c hc
    rcases hc with hc | hc
    · rw [← List.take_append_drop mp pos, List.mem_append] at hc
      rcases hc with hc | hc
      · exact Or.inl (List.mem_append.mpr (Or.inl hc))
      · exact Or.inr (List.mem_append.mpr (Or.inl hc))
    · rw [← List.take_append_drop mn neg, List.mem_append] at hc
      rcases hc with hc | hc
      · exact Or.inl (List.mem_append.mpr (Or.inr hc))
      · exact Or.inr (List.mem_append.mpr (Or.inr hc))

/-- C6 counterexample: with a pair-of-fractions argument (valid: the
fractions sum to at most 1), the returned lists need not cover the input
(cluster ids 1 and 2 are dropped), and with a zero train fraction,
`neg_labels[-0:]` is the whole negative list, so the two sides are not even
disjoint (cluster id 0 lands in both). -/
theorem C6_counterexample :
    split_clusters [5] [0, 1, 2, 3] (1/2) (Sum.inr (1/4, 1/4))
      = Except.ok ([5, 0], [3])
    ∧ (1 : ℤ) ∈ ([0, 1, 2, 3] : List ℤ)
    ∧ (1 : ℤ) ∉ ([5, 0] : List ℤ) ∧ (1 : ℤ) ∉ ([3] : List ℤ)
    ∧ split_clusters [] [0, 1] 0 (Sum.inr (1/2, 0))
      = Except.ok ([0], [0, 1])
    ∧ (0 : ℤ) ∈ ([0] : List ℤ) ∧ (0 : ℤ) ∈ ([0, 1] : List ℤ) := by
  refine ⟨by with_unfolding_all rfl, by decide, by decide, by decide,
    by with_unfolding_all rfl, by decide, by decide⟩

/-- Witness for C6 at a concrete float-fraction input. -/
theorem C6_witness :
    (∀ c : ℤ, ¬ (c ∈ ([0, 1] : List ℤ) ∧ c ∈ ([2] : List ℤ)))
    ∧ (∀ c : ℤ, c ∈ ([0] : List ℤ) ∨ c ∈ ([1, 2] : List ℤ) →
        c ∈ ([0, 1] : List ℤ) ∨ c ∈ ([2] : List ℤ)) :=
  C6_split_clusters_partition [0] [1, 2] (1/2) (1/2)
    (by decide) (by decide) (by decide) [0, 1] [2] (by with_unfolding_all rfl)

/-- C7: whenever the requested test and train proportions of the negative
clusters sum to more than 1, `split_clusters` raises `ValueError` instead
of returning a partition. -/
theorem C7_split_clusters_error (pos neg : List ℤ) (pf f0 f1 : ℚ)
    (h : 1 < f0 + f1) :
    split_clusters pos neg pf (Sum.inr (f0, f1))
      = Except.error "Sum of test proportion and train proportion must be less than 1" := by
  unfold split_clusters
  simp [h]

/-- Witness for C7. -/
theorem C7_witness :
    split_clusters [] [] 0 (Sum.inr (1, 1))
      = Except.error "Sum of test proportion and train proportion must be less than 1" :=
  C7_split_clusters_error [] [] 0 1 1 (by norm_num)

/-! ## C1: calc_AVE computes the spec's threshold-averaged score -/

lemma linspace_eq : linspace 0 1 50 = specThresholds := by
  unfold linspace specThresholds
  refine List.map_congr_left ?_
  intro k _
  norm_num

lemma count_true_map {α : Type} (l : List α) (f : α → Bool) :
    (l.map f).count true = (l.filter f).length := by
  induction l with
  | nil => simp
  | cons x xs ih => by_cases h : f x <;> simp [h, ih, List.count_cons]

lemma allSome_map_some {α : Type} (l : List α) (g : α → ℚ) :
    allSome (l.map (fun a => some (g a))) = some (l.map g) := by
  induction l with
  | nil => rfl
  | cons x xs ih => simp [allSome, ih]

lemma S_code_eq_spec (M : List (List ℚ)) (hM : M ≠ []) :
    S_code M = some (S_spec M) := by
  unfold S_code npMeanOpt
  have hmap : (linspace 0 1 50).map (fun t => npMeanB (npAnyLt M t))
      = (linspace 0 1 50).map (fun t => some (fracBelow M t)) := by
    refine List.map_congr_left ?_
    intro t _
    unfold npMeanB npAnyLt fracBelow
    rw [if_neg (by simp [List.isEmpty_iff, hM])]
    rw [count_true_map, List.length_map]
  rw [hmap, allSome_map_some, Option.some_bind]
  unfold npMeanQ
  rw [if_neg (by simp [List.isEmpty_iff, linspace])]
  rw [linspace_eq]
  have hlen : (((specThresholds.map (fun t => fracBelow M t)).length : ℕ) : ℚ) = 50 := by
    simp [specThresholds]
  rw [hlen]
  rfl

/-- C1: for every quartet of distance matrices in which every matrix has at
least one row and one column, `calc_AVE` returns
`S(aTest,aTrain) - S(aTest,iTrain) + S(iTest,iTrain) - S(iTest,aTrain)`,
where `S(M)` is the mean over the 50 evenly spaced thresholds `t ∈ [0,1]`
(inclusive) of the fraction of rows of `M` containing an entry `< t`. -/
theorem C1_calc_AVE (A B C D : List (List ℚ))
    (hA : A ≠ [] ∧ ∀ r ∈ A, r ≠ []) (hB : B ≠ [] ∧ ∀ r ∈ B, r ≠ [])
    (hC : C ≠ [] ∧ ∀ r ∈ C, r ≠ []) (hD : D ≠ [] ∧ ∀ r ∈ D, r ≠ []) :
    calc_AVE (A, B, C, D)
      = some (S_spec A - S_spec B + S_spec C - S_spec D) := by
  unfold calc_AVE
  rw [S_code_eq_spec A hA.1, S_code_eq_spec B hB.1, S_code_eq_spec C hC.1,
    S_code_eq_spec D hD.1]
  rfl

/-- Witness for C1: on four identical matrices the four scores cancel. -/
theorem C1_witness :
    calc_AVE ([[1/2]], [[1/2]], [[1/2]], [[1/2]]) = some 0 :=
  (C1_calc_AVE [[1/2]] [[1/2]] [[1/2]] [[1/2]]
      ⟨by decide, by decide⟩ ⟨by decide, by decide⟩
      ⟨by decide, by decide⟩ ⟨by decide, by decide⟩).trans
    (congrArg some (by ring))

/-! ## C9: calc_VE -/

lemma minsOf_ok (M : List (List ℚ)) (h : ∀ r ∈ M, r ≠ []) :
    minsOf M = Except.ok (M.map rowMinD) := by
  induction M with
  | nil => rfl
  | cons r rest ih =>
      have hr : r ≠ [] := h r (by simp)
      unfold minsOf
      cases r with
      | nil => exact absurd rfl hr
      | cons x xs =>
          rw [ih (fun s hs => h s (by simp [hs]))]
          rfl

lemma specTerm_self (M : List (List ℚ)) : specTerm M M = 0 := by
  unfold specTerm
  rw [List.zipWith_same]
  have : (M.map fun r => rowMinD r - rowMinD r) = M.map (fun _ => (0 : ℚ)) := by
    refine List.map_congr_left ?_
    intro r _
    exact sub_self _
  rw [this]
  simp

/-- C9: for every quartet of non-empty distance matrices (consistent row
counts, no zero-size rows), `calc_VE` returns
`sqrt(term1 ^ 2 + term2 ^ 2)` with `term1` the mean over active-test rows
of (row-min of aTest-iTrain minus row-min of aTest-aTrain) and `term2` the
analogous inactive-test mean; the result is always non-negative; and on
four identical matrices it is exactly 0. -/
theorem C9_calc_VE (A B C D : List (List ℚ))
    (hA : A ≠ []) (hC : C ≠ [])
    (hBA : B.length = A.length) (hDC : D.length = C.length)
    (hrA : ∀ r ∈ A, r ≠ []) (hrB : ∀ r ∈ B, r ≠ [])
    (hrC : ∀ r ∈ C, r ≠ []) (hrD : ∀ r ∈ D, r ≠ []) :
    calc_VE (A, B, C, D)
      = Except.ok (some (Real.sqrt (((specTerm B A : ℚ) : ℝ) ^ 2
          + ((specTerm D C : ℚ) : ℝ) ^ 2)))
    ∧ (∀ v : ℝ, calc_VE (A, B, C, D) = Except.ok (some v) → 0 ≤ v)
    ∧ (A = B → B = C → C = D → calc_VE (A, B, C, D) = Except.ok (some 0)) := by
  have hBne : B ≠ [] := by
    intro h
    rw [h] at hBA
    exact hA (List.eq_nil_of_length_eq_zero hBA.symm)
  have hDne : D ≠ [] := by
    intro h
    rw [h] at hDC
    exact hC (List.eq_nil_of_length_eq_zero hDC.symm)
  have hterms : VE_terms (A, B, C, D) = Except.ok (some (specTerm B A, specTerm D C)) := by
    unfold VE_terms
    rw [minsOf_ok B hrB, minsOf_ok A hrA, minsOf_ok D hrD, minsOf_ok C hrC]
    have hz1 : List.zipWith (fun a b => a - b) (B.map rowMinD) (A.map rowMinD)
        = List.zipWith (fun rb ra => rowMinD rb - rowMinD ra) B A := by
      rw [List.zipWith_map]
    have hz2 : List.zipWith (fun a b => a - b) (D.map rowMinD) (C.map rowMinD)
        = List.zipWith (fun rd rc => rowMinD rd - rowMinD rc) D C := by
      rw [List.zipWith_map]
    have hm1 : npMeanQ (List.zipWith (fun rb ra => rowMinD rb - rowMinD ra) B A)
        = some (specTerm B A) := by
      unfold npMeanQ specTerm
      rw [if_neg (by
        simp only [List.isEmpty_iff, List.zipWith_eq_nil_iff]
        rintro (h | h) <;> [exact hBne h; exact hA h])]
      rw [List.length_zipWith, hBA, min_self]
    have hm2 : npMeanQ (List.zipWith (fun rd rc => rowMinD rd - rowMinD rc) D C)
        = some (specTerm D C) := by
      unfold npMeanQ specTerm
      rw [if_neg (by
        simp only [List.isEmpty_iff, List.zipWith_eq_nil_iff]
        rintro (h | h) <;> [exact hDne h; exact hC h])]
      rw [List.length_zipWith, hDC, min_self]
    show Except.ok (do
        let term_one ← npMeanQ
          (List.zipWith (fun a b => a - b) (B.map rowMinD) (A.map rowMinD))
        let term_two ← npMeanQ
          (List.zipWith (fun a b => a - b) (D.map rowMinD) (C.map rowMinD))
        pure (term_one, term_two))
      = Except.ok (some (specTerm B A, specTerm D C))
    rw [hz1, hz2, hm1, hm2]
    rfl
  have hmain : calc_VE (A, B, C, D)
      = Except.ok (some (Real.sqrt (((specTerm B A : ℚ) : ℝ) ^ 2
          + ((specTerm D C : ℚ) : ℝ) ^ 2))) := by
    unfold calc_VE
    rw [hterms]
    rfl
  refine ⟨hmain, ?_, ?_⟩
  · intro v hv
    rw [hmain] at hv
    simp only [Except.ok.injEq, Option.some.injEq] at hv
    rw [← hv]
    exact Real.sqrt_nonneg _
  · intro e1 e2 e3
    subst e1
    subst e2
    subst e3
    rw [hmain, specTerm_self]
    norm_num

/-- Witness for C9: four identical all-0.5 matrices give VE = 0 exactly. -/
theorem C9_witness :
    calc_VE ([[1/2, 1/2], [1/2, 1/2]], [[1/2, 1/2], [1/2, 1/2]],
             [[1/2, 1/2], [1/2, 1/2]], [[1/2, 1/2], [1/2, 1/2]])
      = Except.ok (some 0) :=
  (C9_calc_VE [[1/2, 1/2], [1/2, 1/2]] [[1/2, 1/2], [1/2, 1/2]]
      [[1/2, 1/2], [1/2, 1/2]] [[1/2, 1/2], [1/2, 1/2]]
      (by decide) (by decide) rfl rfl
      (by decide) (by decide) (by decide) (by decide)).2.2 rfl rfl rfl

/-! ## C8: behaviour of the estimators on empty groups -/

lemma S_code_nil : S_code [] = none := rfl

lemma calc_AVE_none_iff (A B C D : List (List ℚ)) :
    calc_AVE (A, B, C, D) = none ↔ (A = [] ∨ B = [] ∨ C = [] ∨ D = []) := by
  constructor
  · intro h
    by_contra hno
    push_neg at hno
    obtain ⟨h1, h2, h3, h4⟩ := hno
    unfold calc_AVE at h
    rw [S_code_eq_spec A h1, S_code_eq_spec B h2, S_code_eq_spec C h3,
      S_code_eq_spec D h4] at h
    simp at h
  · intro h
    unfold calc_AVE
    rcases h with h | h | h | h
    · subst h
      rfl
    · subst h
      cases hSA : S_code A <;> rfl
    · subst h
      cases hSA : S_code A <;> cases hSB : S_code B <;> rfl
    · subst h
      cases hSA : S_code A <;> cases hSB : S_code B <;> cases hSC : S_code C <;> rfl

lemma minsOf_error_iff (M : List (List ℚ)) :
    (∃ msg, minsOf M = Except.error msg) ↔ [] ∈ M := by
  induction M with
  | nil =>
      constructor
      · rintro ⟨msg, h⟩
        exact Except.noConfusion h
      · intro h
        exact absurd h (List.not_mem_nil [])
  | cons r rest ih =>
      cases r with
      | nil =>
          constructor
          · intro _
            exact List.mem_cons_self [] rest
          · intro _
            exact ⟨"zero-size array to reduction operation minimum which has no identity",
              rfl⟩
      | cons x xs =>
          unfold minsOf liftMin
          cases hrest : minsOf rest with
          | error e =>
              constructor
              · intro _
                exact List.mem_cons_of_mem _ (ih.mp ⟨e, hrest⟩)
              · intro _
                exact ⟨e, rfl⟩
          | ok ms =>
              constructor
              · rintro ⟨msg, h⟩
                exact Except.noConfusion h
              · intro hmem
                rcases List.mem_cons.mp hmem with h | h
                · exact absurd h (by simp)
                · obtain ⟨msg, hm⟩ := ih.mpr h
                  rw [hm] at hrest
                  exact Except.noConfusion hrest

lemma VE_terms_error_iff (A B C D : List (List ℚ)) :
    (∃ msg, VE_terms (A, B, C, D) = Except.error msg)
      ↔ ([] ∈ A ∨ [] ∈ B ∨ [] ∈ C ∨ [] ∈ D) := by
  unfold VE_terms
  cases hB : minsOf B with
  | error e =>
      exact ⟨fun _ => Or.inr (Or.inl ((minsOf_error_iff B).mp ⟨e, hB⟩)),
        fun _ => ⟨e, rfl⟩⟩
  | ok mB =>
      have hBmem : ¬ [] ∈ B := by
        intro hm
        obtain ⟨msg, h⟩ := (minsOf_error_iff B).mpr hm
        rw [h] at hB
        exact Except.noConfusion hB
      cases hA : minsOf A with
      | error e =>
          exact ⟨fun _ => Or.inl ((minsOf_error_iff A).mp ⟨e, hA⟩),
            fun _ => ⟨e, rfl⟩⟩
      | ok mA =>
          have hAmem : ¬ [] ∈ A := by
            intro hm
            obtain ⟨msg, h⟩ := (minsOf_error_iff A).mpr hm
            rw [h] at hA
            exact Except.noConfusion hA
          cases hD : minsOf D with
          | error e =>
              exact ⟨fun _ => Or.inr (Or.inr (Or.inr ((minsOf_error_iff D).mp ⟨e, hD⟩))),
                fun _ => ⟨e, rfl⟩⟩
          | ok mD =>
              have hDmem : ¬ [] ∈ D := by
                intro hm
                obtain ⟨msg, h⟩ := (minsOf_error_iff D).mpr hm
                rw [h] at hD
                exact Except.noConfusion hD
              cases hC : minsOf C with
              | error e =>
                  exact ⟨fun _ => Or.inr (Or.inr (Or.inl ((minsOf_error_iff C).mp ⟨e, hC⟩))),
                    fun _ => ⟨e, rfl⟩⟩
              | ok mC =>
                  have hCmem : ¬ [] ∈ C := by
                    intro hm
                    obtain ⟨msg, h⟩ := (minsOf_error_iff C).mpr hm
                    rw [h] at hC
                    exact Except.noConfusion hC
                  constructor
                  · rintro ⟨msg, h⟩
                    exact Except.noConfusion h
                  · intro h
                    rcases h with h | h | h | h
                    · exact absurd h hAmem
                    · exact absurd h hBmem
                    · exact absurd h hCmem
                    · exact absurd h hDmem

lemma calc_VE_error_iff (A B C D : List (List ℚ)) :
    (∃ msg, calc_VE (A, B, C, D) = Except.error msg)
      ↔ ([] ∈ A ∨ [] ∈ B ∨ [] ∈ C ∨ [] ∈ D) := by
  rw [← VE_terms_error_iff A B C D]
  unfold calc_VE
  cases hV : VE_terms (A, B, C, D) with
  | error e =>
      exact ⟨fun _ => ⟨e, rfl⟩, fun _ => ⟨e, rfl⟩⟩
  | ok v =>
      exact ⟨fun ⟨m, h⟩ => Except.noConfusion h, fun ⟨m, h⟩ => Except.noConfusion h⟩

/-- C8 (amended): the estimators do not uniformly report empty groups.
`calc_AVE` never raises: it returns NaN exactly when some quartet matrix
has zero rows, and an ordinary number otherwise (in particular a silent
numeric result when a matrix merely has zero columns).  `calc_VE` raises
the numpy ValueError exactly when some quartet matrix contains a zero-size
row (zero columns with at least one row); with zero rows it silently
returns NaN. -/
theorem C8_empty_group_reporting (A B C D : List (List ℚ)) :
    (calc_AVE (A, B, C, D) = none ↔ (A = [] ∨ B = [] ∨ C = [] ∨ D = []))
    ∧ ((∃ msg, calc_VE (A, B, C, D) = Except.error msg)
        ↔ ([] ∈ A ∨ [] ∈ B ∨ [] ∈ C ∨ [] ∈ D)) :=
  ⟨calc_AVE_none_iff A B C D, calc_VE_error_iff A B C D⟩

/-- C8 counterexample: a quartet of 1×0 matrices is an empty-group quartet,
yet `calc_AVE` silently returns the number 0.0; and on the quartet of 0×0
matrices `calc_VE` silently returns NaN instead of reporting. -/
theorem C8_counterexample :
    calc_AVE ([[]], [[]], [[]], [[]]) = some 0
    ∧ calc_VE ([], [], [], []) = Except.ok none := by
  constructor
  · with_unfolding_all decide
  · rfl

/-! ## C10: calc_AVE_quick agrees with calc_AVE on submatrices -/

lemma foldl_min_lt (xs : List ℚ) (x t : ℚ) :
    (xs.foldl min x < t) ↔ (x < t ∨ xs.any (fun y => decide (y < t)) = true) := by
  induction xs generalizing x with
  | nil => simp
  | cons y ys ih =>
      rw [List.foldl_cons, ih, List.any_cons]
      simp [min_lt_iff, or_assoc]

lemma rowMinD_lt_iff (r : List ℚ) (hr : r ≠ []) (t : ℚ) :
    (rowMinD r < t) ↔ (r.any (fun y => decide (y < t)) = true) := by
  cases r with
  | nil => exact absurd rfl hr
  | cons x xs =>
      unfold rowMinD
      rw [foldl_min_lt, List.any_cons]
      simp

lemma S_quick_eq (rows : List (List ℚ)) (h : ∀ r ∈ rows, r ≠ []) :
    S_quick (rows.map rowMinD) = S_code rows := by
  unfold S_quick S_code
  congr 1
  refine List.map_congr_left ?_
  intro t _
  congr 1
  unfold npAnyLt
  rw [List.map_map]
  refine List.map_congr_left ?_
  intro r hr
  simp only [Function.comp]
  cases hb : r.any (fun y => decide (y < t)) with
  | true => exact decide_eq_true ((rowMinD_lt_iff r (h r hr) t).mpr hb)
  | false =>
      refine decide_eq_false ?_
      intro hp
      rw [(rowMinD_lt_iff r (h r hr) t).mp hp] at hb
      exact Bool.noConfusion hb

/-- C10: for every distance matrix and every four index lists selecting
non-empty row and column subsets within bounds, `calc_AVE_quick` returns
exactly `calc_AVE` applied to the four selected submatrices — a row's
minimum is below a threshold exactly when some entry of the row is. -/
theorem C10_calc_AVE_quick_eq (dmat : List (List ℚ)) (w : ℕ)
    (actives_train actives_test inactives_train inactives_test : List ℕ)
    (hrect : ∀ r ∈ dmat, r.length = w)
    (hat : actives_train ≠ []) (hate : actives_test ≠ [])
    (hit : inactives_train ≠ []) (hite : inactives_test ≠ [])
    (hbat : ∀ i ∈ actives_test, i < dmat.length)
    (hbit : ∀ i ∈ inactives_test, i < dmat.length)
    (hcat : ∀ j ∈ actives_train, j < w)
    (hcit : ∀ j ∈ inactives_train, j < w) :
    calc_AVE_quick dmat actives_train actives_test inactives_train inactives_test
      = Except.ok (calc_AVE
          (submatrix dmat actives_test actives_train,
           submatrix dmat actives_test inactives_train,
           submatrix dmat inactives_test inactives_train,
           submatrix dmat inactives_test actives_train)) := by
  have hrows : ∀ (rows cols : List ℕ), cols ≠ [] →
      ∀ r ∈ submatrix dmat rows cols, r ≠ [] := by
    intro rows cols hc r hr
    unfold submatrix at hr
    simp only [List.mem_map] at hr
    obtain ⟨i, _, rfl⟩ := hr
    simp [hc]
  unfold calc_AVE_quick
  rw [minsOf_ok _ (hrows inactives_test inactives_train hit),
    minsOf_ok _ (hrows inactives_test actives_train hat),
    minsOf_ok _ (hrows actives_test actives_train hat),
    minsOf_ok _ (hrows actives_test inactives_train hit)]
  show Except.ok (do
      let aTest_aTrain_S ← S_quick ((submatrix dmat actives_test actives_train).map rowMinD)
      let aTest_iTrain_S ← S_quick ((submatrix dmat actives_test inactives_train).map rowMinD)
      let iTest_iTrain_S ← S_quick ((submatrix dmat inactives_test inactives_train).map rowMinD)
      let iTest_aTrain_S ← S_quick ((submatrix dmat inactives_test actives_train).map rowMinD)
      pure (aTest_aTrain_S - aTest_iTrain_S + iTest_iTrain_S - iTest_aTrain_S))
    = Except.ok (calc_AVE
        (submatrix dmat actives_test actives_train,
         submatrix dmat actives_test inactives_train,
         submatrix dmat inactives_test inactives_train,
         submatrix dmat inactives_test actives_train))
  rw [S_quick_eq _ (hrows actives_test actives_train hat),
    S_quick_eq _ (hrows actives_test inactives_train hit),
    S_quick_eq _ (hrows inactives_test inactives_train hit),
    S_quick_eq _ (hrows inactives_test actives_train hat)]
  rfl

/-- Witness for C10 at a concrete 2×2 distance matrix. -/
theorem C10_witness :
    calc_AVE_quick [[1/2, 1/3], [1/4, 1/5]] [0] [0] [1] [1]
      = Except.ok (calc_AVE
          (submatrix [[1/2, 1/3], [1/4, 1/5]] [0] [0],
           submatrix [[1/2, 1/3], [1/4, 1/5]] [0] [1],
           submatrix [[1/2, 1/3], [1/4, 1/5]] [1] [1],
           submatrix [[1/2, 1/3], [1/4, 1/5]] [1] [0])) :=
  C10_calc_AVE_quick_eq [[1/2, 1/3], [1/4, 1/5]] 2 [0] [0] [1] [1]
    (by decide) (by decide) (by decide) (by decide) (by decide)
    (by decide) (by decide) (by decide) (by decide)
